import Mathlib

/-!
Verification of the libde265 FFmpeg bridge (`libde265dec.c`).

The file gives a shallow embedding of the decoder bridge's pure core:
pixel-format negotiation, the buffer-allocation callback pair with its
recycling pools, the packetized/raw bitstream demuxing, the out-of-band
configuration-record parser, the deferred-crop application on retrieved
pictures, and the bit-depth-aware plane conversion.  Bytes are modelled
as `Nat` values `< 256` in `List Nat`; pointers are modelled as `Nat`
addresses; the external engine (libde265) and the host allocation hooks
are modelled by explicit oracles recording whether each external call
succeeds.  Theorems about the spec's claims follow the definitions.
-/

namespace LibDE265Dec

/-- Chroma layouts of `enum de265_chroma` used by the bridge
(`de265_chroma_mono/420/422/444`). -/
inductive de265_chroma
  | de265_chroma_mono
  | de265_chroma_420
  | de265_chroma_422
  | de265_chroma_444
deriving DecidableEq, Repr

export de265_chroma (de265_chroma_mono de265_chroma_420 de265_chroma_422 de265_chroma_444)

/-- The subset of `enum AVPixelFormat` values the bridge can produce,
plus `AV_PIX_FMT_NONE` for "unsupported". -/
inductive AVPixelFormat
  | AV_PIX_FMT_NONE
  | AV_PIX_FMT_GRAY8
  | AV_PIX_FMT_YUV420P
  | AV_PIX_FMT_YUV420P9LE
  | AV_PIX_FMT_YUV420P10LE
  | AV_PIX_FMT_YUV420P12LE
  | AV_PIX_FMT_YUV420P14LE
  | AV_PIX_FMT_YUV420P16LE
  | AV_PIX_FMT_YUV422P
  | AV_PIX_FMT_YUV422P9LE
  | AV_PIX_FMT_YUV422P10LE
  | AV_PIX_FMT_YUV422P12LE
  | AV_PIX_FMT_YUV422P14LE
  | AV_PIX_FMT_YUV422P16LE
  | AV_PIX_FMT_YUV444P
  | AV_PIX_FMT_YUV444P9LE
  | AV_PIX_FMT_YUV444P10LE
  | AV_PIX_FMT_YUV444P12LE
  | AV_PIX_FMT_YUV444P14LE
  | AV_PIX_FMT_YUV444P16LE
deriving DecidableEq, Repr

open AVPixelFormat

/-- `get_pixel_format` (libde265dec.c lines 75-172): maps the image's
chroma layout and bits-per-pixel to a concrete output pixel format.
The C `switch` on `bits_per_pixel` is rendered as the equivalent chain
of equality tests; the `default` arm keeps the C's range check.  Note
the `mono` arm assigns `AV_PIX_FMT_GRAY8` without inspecting
`bits_per_pixel`, exactly as the C does. -/
def get_pixel_format (chroma : de265_chroma) (bits_per_pixel : Nat) : AVPixelFormat :=
  match chroma with
  | de265_chroma_mono => AV_PIX_FMT_GRAY8
  | de265_chroma_420 =>
      if bits_per_pixel = 8 then AV_PIX_FMT_YUV420P
      else if bits_per_pixel = 9 then AV_PIX_FMT_YUV420P9LE
      else if bits_per_pixel = 10 then AV_PIX_FMT_YUV420P10LE
      else if bits_per_pixel = 12 then AV_PIX_FMT_YUV420P12LE
      else if bits_per_pixel = 14 then AV_PIX_FMT_YUV420P14LE
      else if bits_per_pixel = 16 then AV_PIX_FMT_YUV420P16LE
      else if bits_per_pixel < 8 ∨ bits_per_pixel > 16 then AV_PIX_FMT_NONE
      else AV_PIX_FMT_YUV420P16LE
  | de265_chroma_422 =>
      if bits_per_pixel = 8 then AV_PIX_FMT_YUV422P
      else if bits_per_pixel = 9 then AV_PIX_FMT_YUV422P9LE
      else if bits_per_pixel = 10 then AV_PIX_FMT_YUV422P10LE
      else if bits_per_pixel = 12 then AV_PIX_FMT_YUV422P12LE
      else if bits_per_pixel = 14 then AV_PIX_FMT_YUV422P14LE
      else if bits_per_pixel = 16 then AV_PIX_FMT_YUV422P16LE
      else if bits_per_pixel < 8 ∨ bits_per_pixel > 16 then AV_PIX_FMT_NONE
      else AV_PIX_FMT_YUV422P16LE
  | de265_chroma_444 =>
      if bits_per_pixel = 8 then AV_PIX_FMT_YUV444P
      else if bits_per_pixel = 9 then AV_PIX_FMT_YUV444P9LE
      else if bits_per_pixel = 10 then AV_PIX_FMT_YUV444P10LE
      else if bits_per_pixel = 12 then AV_PIX_FMT_YUV444P12LE
      else if bits_per_pixel = 14 then AV_PIX_FMT_YUV444P14LE
      else if bits_per_pixel = 16 then AV_PIX_FMT_YUV444P16LE
      else if bits_per_pixel < 8 ∨ bits_per_pixel > 16 then AV_PIX_FMT_NONE
      else AV_PIX_FMT_YUV444P16LE

/-- `get_output_bits_per_pixel` (lines 174-205): nominal bit depth of a
negotiated pixel format, `-1` for anything else (here: for
`AV_PIX_FMT_NONE`). -/
def get_output_bits_per_pixel (format : AVPixelFormat) : Int :=
  match format with
  | AV_PIX_FMT_GRAY8 => 8
  | AV_PIX_FMT_YUV420P | AV_PIX_FMT_YUV422P | AV_PIX_FMT_YUV444P => 8
  | AV_PIX_FMT_YUV420P9LE | AV_PIX_FMT_YUV422P9LE | AV_PIX_FMT_YUV444P9LE => 9
  | AV_PIX_FMT_YUV420P10LE | AV_PIX_FMT_YUV422P10LE | AV_PIX_FMT_YUV444P10LE => 10
  | AV_PIX_FMT_YUV420P12LE | AV_PIX_FMT_YUV422P12LE | AV_PIX_FMT_YUV444P12LE => 12
  | AV_PIX_FMT_YUV420P14LE | AV_PIX_FMT_YUV422P14LE | AV_PIX_FMT_YUV444P14LE => 14
  | AV_PIX_FMT_YUV420P16LE | AV_PIX_FMT_YUV422P16LE | AV_PIX_FMT_YUV444P16LE => 16
  | AV_PIX_FMT_NONE => -1

/-- `struct de265_image_spec`: the engine's per-picture description
consumed by the allocate callback (chroma layout, bit depths, coded and
visible geometry, crop offsets, required alignment). -/
structure de265_image_spec where
  chroma : de265_chroma
  luma_bits_per_pixel : Nat
  chroma_bits_per_pixel : Nat
  width : Nat
  height : Nat
  visible_width : Nat
  visible_height : Nat
  crop_left : Nat
  crop_top : Nat
  alignment : Nat
deriving DecidableEq, Repr

/-- An `AVFrame` as the bridge uses it: dimensions, pixel format, and
per-plane base addresses and strides (addresses are machine pointers,
modelled as `Nat`). -/
structure FrameBuf where
  width : Nat
  height : Nat
  format : AVPixelFormat
  data0 : Nat
  data1 : Nat
  data2 : Nat
  linesize0 : Nat
  linesize1 : Nat
  linesize2 : Nat
deriving DecidableEq, Repr

/-- Plane base address by index (the C's `frame->data[i]`). -/
def FrameBuf.dataAt (f : FrameBuf) (i : Nat) : Nat :=
  if i = 0 then f.data0 else if i = 1 then f.data1 else f.data2

/-- Plane stride by index (the C's `frame->linesize[i]`). -/
def FrameBuf.linesizeAt (f : FrameBuf) (i : Nat) : Nat :=
  if i = 0 then f.linesize0 else if i = 1 then f.linesize1 else f.linesize2

/-- `MAX_FRAME_QUEUE` (line 49). -/
def MAX_FRAME_QUEUE : Nat := 16

/-- `MAX_SPEC_QUEUE` (line 50). -/
def MAX_SPEC_QUEUE : Nat := 16

/-- The two recycling pools held in `DE265Context`: `frame_queue`
(pushed at the tail, popped at the head, lines 64 and 257-262/342-347)
and `spec_queue` (a stack: pushed and popped at the tail, lines 66 and
207-213/289-291).  List length models the `*_queue_len` counters. -/
structure DecPools where
  frame_queue : List FrameBuf
  spec_queue : List de265_image_spec
deriving DecidableEq, Repr

/-- `free_spec` (lines 207-213): recycle a spec descriptor into the
spec pool if it has room, otherwise `free` it.  The returned `Bool`
records whether the descriptor was destroyed. -/
def free_spec (q : List de265_image_spec) (spec : de265_image_spec) :
    List de265_image_spec × Bool :=
  if q.length < MAX_SPEC_QUEUE then (q ++ [spec], false) else (q, true)

/-- Spec-pool pop (lines 289-291): `spec_queue[--spec_queue_len]`, i.e.
take from the tail; `none` when the pool is empty. -/
def spec_queue_pop (q : List de265_image_spec) :
    Option de265_image_spec × List de265_image_spec :=
  (q.getLast?, q.dropLast)

/-- Frame-pool pop (lines 257-262): take `frame_queue[0]` and
`memmove` the rest forward; `none` when the pool is empty. -/
def frame_queue_pop (q : List FrameBuf) : Option FrameBuf × List FrameBuf :=
  match q with
  | [] => (none, [])
  | f :: rest => (some f, rest)

/-- `ff_libde265dec_release_buffer` (lines 321-348) restricted to the
case where the image does carry a bridged frame: recycle the attached
spec descriptor (if any) via `free_spec`, then either hand the frame
back to the host (`avctx->get_buffer2` present), or push it onto the
frame pool unless the pool is full (in which case it is freed). -/
def ff_libde265dec_release_buffer (has_get_buffer2 : Bool)
    (attached : Option de265_image_spec) (frame : FrameBuf) (st : DecPools) :
    DecPools :=
  let st :=
    match attached with
    | some spec => { st with spec_queue := (free_spec st.spec_queue spec).1 }
    | none => st
  if has_get_buffer2 then st
  else if st.frame_queue.length = MAX_FRAME_QUEUE then st
  else { st with frame_queue := st.frame_queue ++ [frame] }

/-- Frame-pool "pop or allocate new" (lines 257-283 with a fresh
allocation succeeding): popping from an empty pool falls through to the
freshly allocated frame. -/
def frame_pop_or_new (q : List FrameBuf) (fresh : FrameBuf) :
    FrameBuf × List FrameBuf :=
  match frame_queue_pop q with
  | (some f, q') => (f, q')
  | (none, q') => (fresh, q')

/-- Spec-pool "pop or allocate new" (lines 288-297 with `malloc`
succeeding): popping from an empty pool falls through to a fresh
descriptor. -/
def spec_pop_or_new (q : List de265_image_spec) (fresh : de265_image_spec) :
    de265_image_spec × List de265_image_spec :=
  match spec_queue_pop q with
  | (some s, q') => (s, q')
  | (none, q') => (fresh, q')

/-- One pool operation, as performed by the callback pair: a release
(which pushes, possibly recycling an attached descriptor) or one of the
two pops done by the allocate path. -/
inductive PoolOp
  | releaseFrame (has_get_buffer2 : Bool) (attached : Option de265_image_spec)
      (f : FrameBuf)
  | popFrame
  | popSpec
deriving Repr

/-- Apply one pool operation to the pools. -/
def DecPools.step (st : DecPools) : PoolOp → DecPools
  | .releaseFrame hook attached f => ff_libde265dec_release_buffer hook attached f st
  | .popFrame => { st with frame_queue := (frame_queue_pop st.frame_queue).2 }
  | .popSpec => { st with spec_queue := (spec_queue_pop st.spec_queue).2 }

/-- Run a sequence of pool operations from a starting state. -/
def DecPools.run (st : DecPools) (ops : List PoolOp) : DecPools :=
  ops.foldl DecPools.step st

/-- Oracle for the external calls the allocate callback makes: whether
the host allocation hook is present, whether each fallible external
call succeeds, and the plane layout the successful calls produce. -/
structure AllocEnv where
  /-- `avctx->get_buffer2 != NULL`: the host supplies its own allocator. -/
  get_buffer2_present : Bool
  /-- `av_frame_alloc()` succeeds (used on both allocation paths). -/
  frame_alloc_ok : Bool
  /-- the host's `get_buffer2` call succeeds. -/
  get_buffer2_ok : Bool
  /-- plane addresses/strides the host's `get_buffer2` installs. -/
  host_planes : FrameBuf
  /-- `av_frame_get_buffer` succeeds on the internal path. -/
  frame_get_buffer_ok : Bool
  /-- plane addresses/strides `av_frame_get_buffer` installs. -/
  new_planes : FrameBuf
  /-- `malloc` of a spec-descriptor copy succeeds. -/
  malloc_ok : Bool
deriving DecidableEq, Repr

/-- Result of the allocate callback: a bridged frame registered with
the engine (with the spec copy attached to it when cropping is
deferred), delegation to the engine's built-in default allocator, or a
fatal error reported to the engine.  The C function only ever returns
`1` (success) or the default allocator's result (fallback); the
`fatalError` constructor exists so that "never reports a fatal error"
is a statement about the function, not about the type. -/
inductive AllocOutcome
  | success (frame : FrameBuf) (attached : Option de265_image_spec)
  | fallback
  | fatalError
deriving DecidableEq, Repr

/-- Tail of `ff_libde265dec_get_buffer` (lines 286-314): once a frame
has been obtained, attach a spec copy when the frame's dimensions
differ from the visible dimensions (popping the descriptor pool or
`malloc`ing, falling back if `malloc` fails), then check every used
plane's base address against the spec's alignment, falling back on any
misalignment, and finally register the planes with the engine. -/
def libde265dec_finish_buffer (env : AllocEnv) (spec : de265_image_spec)
    (frame : FrameBuf) (st : DecPools) : AllocOutcome × DecPools :=
  if (frame.width ≠ spec.visible_width ∨ frame.height ≠ spec.visible_height) ∧
      st.spec_queue = [] ∧ ¬ env.malloc_ok then
    (.fallback, st)
  else if ∃ i < (if spec.chroma = de265_chroma_mono then 1 else 3),
      frame.dataAt i % spec.alignment ≠ 0 then
    (.fallback,
      if frame.width ≠ spec.visible_width ∨ frame.height ≠ spec.visible_height then
        { st with spec_queue := (spec_queue_pop st.spec_queue).2 }
      else st)
  else
    (.success frame
      (if frame.width ≠ spec.visible_width ∨ frame.height ≠ spec.visible_height then
        some spec
      else none),
      if frame.width ≠ spec.visible_width ∨ frame.height ≠ spec.visible_height then
        { st with spec_queue := (spec_queue_pop st.spec_queue).2 }
      else st)

/-- Fresh-allocation arm of the internal path (lines 270-283): allocate
a new frame at the coded dimensions, falling back if `av_frame_alloc`
or `av_frame_get_buffer` fails. -/
def libde265dec_fresh_frame (env : AllocEnv) (spec : de265_image_spec)
    (format : AVPixelFormat) (st : DecPools) : AllocOutcome × DecPools :=
  if ¬ env.frame_alloc_ok then (.fallback, st)
  else if ¬ env.frame_get_buffer_ok then (.fallback, st)
  else
    libde265dec_finish_buffer env spec
      { env.new_planes with width := spec.width, height := spec.height, format := format }
      st

/-- `ff_libde265dec_get_buffer` (lines 215-318): the allocate callback.
Rejects (falls back to the engine's default allocator) on a luma/chroma
bit-depth mismatch for non-monochrome layouts, an unsupported pixel
format, a nominal-bit-depth mismatch, any allocation failure, or a
misaligned plane; otherwise registers the obtained frame's planes with
the engine and reports success. -/
def ff_libde265dec_get_buffer (env : AllocEnv) (spec : de265_image_spec)
    (st : DecPools) : AllocOutcome × DecPools :=
  if spec.chroma ≠ de265_chroma_mono ∧
      spec.luma_bits_per_pixel ≠ spec.chroma_bits_per_pixel then
    (.fallback, st)
  else if get_pixel_format spec.chroma spec.luma_bits_per_pixel =
      AV_PIX_FMT_NONE then
    (.fallback, st)
  else if get_output_bits_per_pixel
      (get_pixel_format spec.chroma spec.luma_bits_per_pixel) ≠
      (spec.luma_bits_per_pixel : Int) then
    (.fallback, st)
  else if env.get_buffer2_present then
    if ¬ env.frame_alloc_ok then (.fallback, st)
    else if ¬ env.get_buffer2_ok then (.fallback, st)
    else
      libde265dec_finish_buffer env spec
        { env.host_planes with
            width := spec.visible_width, height := spec.visible_height,
            format := get_pixel_format spec.chroma spec.luma_bits_per_pixel }
        st
  else
    match frame_queue_pop st.frame_queue with
    | (some f, rest) =>
        if f.width ≠ spec.width ∨ f.height ≠ spec.height ∨
            f.format ≠ get_pixel_format spec.chroma spec.luma_bits_per_pixel then
          libde265dec_fresh_frame env spec
            (get_pixel_format spec.chroma spec.luma_bits_per_pixel)
            { st with frame_queue := rest }
        else
          libde265dec_finish_buffer env spec f { st with frame_queue := rest }
    | (none, _) =>
        libde265dec_fresh_frame env spec
          (get_pixel_format spec.chroma spec.luma_bits_per_pixel) st

/-- Deferred-crop application on a retrieved picture (lines 520-535):
when the completed picture's bridged frame carries an attached spec,
the outgoing frame takes the spec's visible dimensions and each used
plane's base address is advanced by
`(crop_left >> shift) + (crop_top >> shift) * linesize` with
`shift = (i == 0) ? 0 : 1`; `numplanes` is 1 for monochrome and 3
otherwise, so planes 1 and 2 are untouched for monochrome. -/
def crop_retrieved_picture (pic : FrameBuf) (spec : de265_image_spec)
    (chroma : de265_chroma) : FrameBuf :=
  let numplanes : Nat := if chroma = de265_chroma_mono then 1 else 3
  { pic with
    width := spec.visible_width
    height := spec.visible_height
    data0 := pic.data0 + (spec.crop_left >>> 0) + (spec.crop_top >>> 0) * pic.linesize0
    data1 :=
      if 1 < numplanes then
        pic.data1 + (spec.crop_left >>> 1) + (spec.crop_top >>> 1) * pic.linesize1
      else pic.data1
    data2 :=
      if 2 < numplanes then
        pic.data2 + (spec.crop_left >>> 1) + (spec.crop_top >>> 1) * pic.linesize2
      else pic.data2 }

/-- The single error code the decode path reports for malformed input
or failed submissions (`AVERROR_INVALIDDATA`). -/
inductive AVError
  | AVERROR_INVALIDDATA
deriving DecidableEq, Repr

/-- Big-endian accumulation of the first `length_size` bytes of `data`
(the loop at lines 443-447: `nal_size = (nal_size << 8) | data[i]`). -/
def read_nal_size (length_size : Nat) (data : List Nat) : Nat :=
  (data.take length_size).foldl (fun acc b => acc * 256 + b) 0

/-- One `de265_push_NAL` call made by the packetized decode loop:
`declared` is the size read from the length field, `payload` the bytes
of the packet actually available for it (truncated at the packet's
end), `available` how many bytes followed the length field.  The C
passes `declared` as the NAL's byte count, so `available < declared`
means the engine is told to read past the packet's end. -/
structure PushedNAL where
  declared : Nat
  payload : List Nat
  available : Nat
deriving DecidableEq, Repr

/-- The packetized decode loop (lines 439-455): while at least
`length_size` bytes remain, read a big-endian size, submit that many
following bytes as one NAL unit, and advance past the length field and
the declared size.  No check compares the declared size against the
bytes remaining.  The `1 ≤ length_size` guard only excludes
`length_size = 0`, for which the C loop would not terminate
(`length_size` is always in 1..4 in the program). -/
def ff_libde265dec_decode_packetized (length_size : Nat) (data : List Nat) :
    List PushedNAL :=
  if h : 1 ≤ length_size ∧ length_size ≤ data.length then
    let nal_size := read_nal_size length_size data
    let rest := data.drop length_size
    ⟨nal_size, rest.take nal_size, rest.length⟩ ::
      ff_libde265dec_decode_packetized length_size (rest.drop nal_size)
  else
    []
termination_by data.length
decreasing_by
  simp only [List.length_drop]
  omega

/-- Big-endian encoding of `v` into `width` bytes (most significant
first); used to build well-formed inputs for the demuxer theorems. -/
def beBytes : Nat → Nat → List Nat
  | 0, _ => []
  | width + 1, v => beBytes width (v / 256) ++ [v % 256]

/-- One length-prefixed record: a `length_size`-byte big-endian length
followed by the payload. -/
def encodeRecord (length_size : Nat) (payload : List Nat) : List Nat :=
  beBytes length_size payload.length ++ payload

/-- A packet made of concatenated length-prefixed records. -/
def encodePacket (length_size : Nat) (records : List (List Nat)) : List Nat :=
  (records.map (encodeRecord length_size)).flatten

/-- Byte read used by the configuration-record parser
(`extradata[i]`, with 0 past the end; the parser checks bounds before
every read it performs). -/
def readByte (b : List Nat) (i : Nat) : Nat := b.getD i 0

/-- Inner NAL loop of the configuration-record parser (lines 398-414):
read `count` NAL units at `pos`, each a 2-byte big-endian size followed
by that many payload bytes; any read past the block's end is an
invalid-data error.  Returns the final position and the submitted NAL
payloads. -/
def parseConfigNALs (b : List Nat) (pos : Nat) :
    Nat → Except AVError (Nat × List (List Nat))
  | 0 => .ok (pos, [])
  | count + 1 =>
      if pos + 2 > b.length then .error .AVERROR_INVALIDDATA
      else if pos + 2 + (readByte b pos * 256 + readByte b (pos + 1)) >
          b.length then .error .AVERROR_INVALIDDATA
      else
        match parseConfigNALs b
            (pos + 2 + (readByte b pos * 256 + readByte b (pos + 1))) count with
        | .ok (p, nals) =>
            .ok (p, (b.drop (pos + 2)).take
              (readByte b pos * 256 + readByte b (pos + 1)) :: nals)
        | .error e => .error e

/-- Outer parameter-set-group loop of the configuration-record parser
(lines 390-415): `count` groups, each one ignored byte followed by a
2-byte big-endian NAL count and that many size-prefixed NAL units.
Returns the final position and all submitted NAL payloads in order. -/
def parseConfigGroups (b : List Nat) (pos : Nat) :
    Nat → Except AVError (Nat × List (List Nat))
  | 0 => .ok (pos, [])
  | count + 1 =>
      if pos + 3 > b.length then .error .AVERROR_INVALIDDATA
      else
        match parseConfigNALs b (pos + 3)
            (readByte b (pos + 1) * 256 + readByte b (pos + 2)) with
        | .ok (p, nals) =>
            match parseConfigGroups b p count with
            | .ok (p', nals') => .ok (p', nals ++ nals')
            | .error e => .error e
        | .error e => .error e

/-- The body of the structured-record branch for blocks longer than 22
bytes (lines 387-415): the NAL-length-field width is the low 2 bits of
byte index 21 plus one, byte index 22 is the group count, and the
groups start at position 23. -/
def parseConfigRecord (b : List Nat) :
    Except AVError (Nat × List (List Nat)) :=
  match parseConfigGroups b 23 (readByte b 22) with
  | .ok (_, nals) => .ok ((readByte b 21 &&& 3) + 1, nals)
  | .error e => .error e

/-- The part of `DE265Context` that the framing logic uses:
`check_extra`, `packetized` and `length_size` (lines 58-60). -/
structure CtxState where
  check_extra : Bool
  packetized : Bool
  length_size : Nat
deriving DecidableEq, Repr

/-- Framing-relevant context initialization from
`ff_libde265dec_ctx_init` (lines 684-686): `check_extra = 1`,
`packetized = 1`, `length_size = 4`. -/
def ff_libde265dec_ctx_init : CtxState :=
  { check_extra := true, packetized := true, length_size := 4 }

/-- What the extradata-processing step pushes to the engine (or how it
fails). -/
inductive ExtradataAction
  /-- structured record: individually pushed NAL units (then end-of-NAL). -/
  | pushedNALs (nals : List (List Nat))
  /-- raw byte-stream blob pushed verbatim via `de265_push_data`. -/
  | pushedRaw (bytes : List Nat)
  /-- empty extradata: nothing pushed. -/
  | noExtra
  /-- buffer underrun in the structured record: `AVERROR_INVALIDDATA`. -/
  | invalidData
deriving DecidableEq, Repr

/-- The `check_extra` block of `ff_libde265dec_decode` (lines 376-430):
clear `check_extra`; with non-empty extradata, classify it as a
structured record (`size > 3` and the first three bytes are not a
start-code-like pattern) — setting `packetized`, and when `size > 22`
reading `length_size` from byte index 21 and parsing the groups — or as
a raw blob, clearing `packetized` and pushing the bytes verbatim. -/
def libde265dec_check_extradata (st : CtxState) (extradata : List Nat) :
    CtxState × ExtradataAction :=
  let st := { st with check_extra := false }
  if extradata.length > 0 then
    if extradata.length > 3 ∧
        (readByte extradata 0 ≠ 0 ∨ readByte extradata 1 ≠ 0 ∨
          readByte extradata 2 > 1) then
      let st := { st with packetized := true }
      if extradata.length > 22 then
        let st := { st with length_size := (readByte extradata 21 &&& 3) + 1 }
        match parseConfigGroups extradata 23 (readByte extradata 22) with
        | .ok (_, nals) => (st, .pushedNALs nals)
        | .error _ => (st, .invalidData)
      else
        (st, .pushedNALs [])
    else
      let st := { st with packetized := false }
      (st, .pushedRaw extradata)
  else
    (st, .noExtra)

/-- What the per-packet decode step does with a packet's payload. -/
inductive PacketAction
  /-- packetized framing: the length-prefixed loop's submissions. -/
  | pushNALs (nals : List PushedNAL)
  /-- raw framing: the whole payload in one `de265_push_data` call. -/
  | pushRaw (bytes : List Nat)
  /-- empty packet: `de265_push_end_of_stream`. -/
  | endOfStream
deriving DecidableEq, Repr

/-- Packet dispatch of `ff_libde265dec_decode` (lines 432-466): a
non-empty packet is demuxed by the packetized loop or pushed raw
according to the framing mode; an empty packet signals end of
stream. -/
def libde265dec_decode_packet (st : CtxState) (packet : List Nat) :
    PacketAction :=
  if packet.length > 0 then
    if st.packetized then
      .pushNALs (ff_libde265dec_decode_packetized st.length_size packet)
    else
      .pushRaw packet
  else
    .endOfStream

/-- One parameter-set group of a structured configuration record, for
building well-formed inputs: the ignored leading byte and the group's
NAL payloads. -/
structure ConfigGroup where
  header_byte : Nat
  nals : List (List Nat)
deriving Repr

/-- A structured configuration record, for building well-formed inputs:
21 leading bytes (version byte first), the byte whose low 2 bits encode
the NAL-length-field width minus one, and the parameter-set groups. -/
structure ConfigRecord where
  head : List Nat
  length_size_byte : Nat
  groups : List ConfigGroup
deriving Repr

/-- Serialize one NAL unit of a configuration record: 2-byte big-endian
size, then the payload. -/
def encodeConfigNAL (nal : List Nat) : List Nat :=
  beBytes 2 nal.length ++ nal

/-- Serialize one parameter-set group: the ignored byte, a 2-byte
big-endian NAL count, then the size-prefixed NAL units. -/
def encodeConfigGroup (g : ConfigGroup) : List Nat :=
  g.header_byte :: beBytes 2 g.nals.length ++ (g.nals.map encodeConfigNAL).flatten

/-- Serialize a structured configuration record: the 21 head bytes, the
length-size byte at index 21, the group count at index 22, then the
groups. -/
def encodeConfigRecord (c : ConfigRecord) : List Nat :=
  c.head ++ [c.length_size_byte] ++ [c.groups.length] ++
    (c.groups.map encodeConfigGroup).flatten

/-- Well-formedness of a `ConfigRecord` input: the head holds exactly
the 21 bytes before the length-size byte, stored counts fit the field
widths they are serialized into. -/
def ConfigRecord.WF (c : ConfigRecord) : Prop :=
  c.head.length = 21 ∧ c.groups.length < 256 ∧
    ∀ g ∈ c.groups, g.nals.length < 65536 ∧ ∀ nal ∈ g.nals, nal.length < 65536

/-- Little-endian 16-bit load from two bytes (the plane-conversion
loops read samples with `uint16_t` loads; FFmpeg's `...LE` formats and
the code's direct loads fix little-endian order). -/
def u16le_load (lo hi : Nat) : Nat := lo + 256 * hi

/-- Little-endian 16-bit store: the two bytes written for a `uint16_t`
sample (truncating to 16 bits, as the store does). -/
def u16le_store (v : Nat) : List Nat := [v % 256, v / 256 % 256]

/-- Right-shift conversion line (lines 578-591): read `uint16_t`
samples two bytes at a time, write each right-shifted sample as a
`uint16_t`; `size / 2` samples, so a trailing odd byte is ignored. -/
def copy_line_16_to_16_right (shift : Nat) : List Nat → List Nat
  | lo :: hi :: rest =>
      u16le_store (u16le_load lo hi >>> shift) ++ copy_line_16_to_16_right shift rest
  | _ => []

/-- Left-shift conversion line for source planes deeper than 8 bits
(lines 592-606): read `uint16_t` samples, write each left-shifted
sample as a `uint16_t` (truncated to 16 bits by the store). -/
def copy_line_16_to_16_left (shift : Nat) : List Nat → List Nat
  | lo :: hi :: rest =>
      u16le_store (u16le_load lo hi <<< shift) ++ copy_line_16_to_16_left shift rest
  | _ => []

/-- Left-shift conversion line for 8-bit source planes (lines 607-620):
read `uint8_t` samples one byte at a time, write each left-shifted
sample as a `uint16_t`. -/
def copy_line_8_to_16_left (shift : Nat) : List Nat → List Nat
  | b :: rest => u16le_store (b <<< shift) ++ copy_line_8_to_16_left shift rest
  | [] => []

/-- Per-plane conversion dispatch of the copy path (lines 570-627),
applied to one line of `size` source bytes: deeper source planes are
right-shifted on 16-bit samples; shallower planes deeper than 8 bits
are left-shifted on 16-bit samples; 8-bit planes are widened to 16-bit
samples with a left shift; equal depths are copied byte for byte
(`av_image_copy_plane`). -/
def convert_plane_line (src : List Nat) (plane_bits_per_pixel : Nat)
    (max_bits_per_pixel : Nat) : List Nat :=
  if plane_bits_per_pixel > max_bits_per_pixel then
    copy_line_16_to_16_right (plane_bits_per_pixel - max_bits_per_pixel) src
  else if plane_bits_per_pixel < max_bits_per_pixel ∧ plane_bits_per_pixel > 8 then
    copy_line_16_to_16_left (max_bits_per_pixel - plane_bits_per_pixel) src
  else if plane_bits_per_pixel < max_bits_per_pixel ∧ plane_bits_per_pixel = 8 then
    copy_line_8_to_16_left (max_bits_per_pixel - plane_bits_per_pixel) src
  else
    src

/-- Serialize a list of samples as consecutive little-endian 16-bit
values (the memory layout of a 16-bit plane line). -/
def encodeSamples16 (samples : List Nat) : List Nat :=
  (samples.map u16le_store).flatten

/-- Read a plane line back as little-endian 16-bit samples. -/
def decodeSamples16 : List Nat → List Nat
  | lo :: hi :: rest => u16le_load lo hi :: decodeSamples16 rest
  | _ => []

/-! ## Theorems about the claims -/

/-- C7: at every exact grid point of the resolver (monochrome at 8;
4:2:0, 4:2:2 and 4:4:4 at each of 8, 9, 10, 12, 14, 16),
`get_pixel_format` returns the documented concrete format, and
`get_output_bits_per_pixel` applied to that format returns exactly the
input bit depth (round-trip). -/
theorem pixel_format_grid_roundtrip :
    ∀ chroma bits format,
      (chroma, bits, format) ∈
        [(de265_chroma_mono, 8, AV_PIX_FMT_GRAY8),
         (de265_chroma_420, 8, AV_PIX_FMT_YUV420P),
         (de265_chroma_420, 9, AV_PIX_FMT_YUV420P9LE),
         (de265_chroma_420, 10, AV_PIX_FMT_YUV420P10LE),
         (de265_chroma_420, 12, AV_PIX_FMT_YUV420P12LE),
         (de265_chroma_420, 14, AV_PIX_FMT_YUV420P14LE),
         (de265_chroma_420, 16, AV_PIX_FMT_YUV420P16LE),
         (de265_chroma_422, 8, AV_PIX_FMT_YUV422P),
         (de265_chroma_422, 9, AV_PIX_FMT_YUV422P9LE),
         (de265_chroma_422, 10, AV_PIX_FMT_YUV422P10LE),
         (de265_chroma_422, 12, AV_PIX_FMT_YUV422P12LE),
         (de265_chroma_422, 14, AV_PIX_FMT_YUV422P14LE),
         (de265_chroma_422, 16, AV_PIX_FMT_YUV422P16LE),
         (de265_chroma_444, 8, AV_PIX_FMT_YUV444P),
         (de265_chroma_444, 9, AV_PIX_FMT_YUV444P9LE),
         (de265_chroma_444, 10, AV_PIX_FMT_YUV444P10LE),
         (de265_chroma_444, 12, AV_PIX_FMT_YUV444P12LE),
         (de265_chroma_444, 14, AV_PIX_FMT_YUV444P14LE),
         (de265_chroma_444, 16, AV_PIX_FMT_YUV444P16LE)] →
      get_pixel_format chroma bits = format ∧
      get_output_bits_per_pixel (get_pixel_format chroma bits) = (bits : Int) := by
  intro chroma bits format h
  fin_cases h <;> exact ⟨by decide, by decide⟩

/-- Witness for `pixel_format_grid_roundtrip` at the 4:2:0/10-bit grid
point. -/
theorem pixel_format_grid_roundtrip_witness :
    get_pixel_format de265_chroma_420 10 = AV_PIX_FMT_YUV420P10LE ∧
    get_output_bits_per_pixel (get_pixel_format de265_chroma_420 10) = (10 : Int) :=
  pixel_format_grid_roundtrip de265_chroma_420 10 AV_PIX_FMT_YUV420P10LE (by decide)

/-- C3 counterexample: for the monochrome layout with bits-per-pixel 7
(strictly less than 8) the resolver returns `AV_PIX_FMT_GRAY8`, not
"unsupported" — the `mono` arm of `get_pixel_format` never inspects the
bit depth, so the claimed range check does not hold for monochrome. -/
theorem get_pixel_format_mono_counterexample :
    get_pixel_format de265_chroma_mono 7 = AV_PIX_FMT_GRAY8 ∧
    get_pixel_format de265_chroma_mono 7 ≠ AV_PIX_FMT_NONE := by
  decide

/-- C3 (amended): for the three non-monochrome layouts the resolver
returns "unsupported" whenever bits-per-pixel is strictly less than 8
or strictly greater than 16, and for bit depths strictly between the
grid points 8/9/10/12/14 or equal to 15/16 it returns the 16-bit format
for that layout; for the monochrome layout it returns
`AV_PIX_FMT_GRAY8` at every bit depth. -/
theorem get_pixel_format_range_behavior :
    ∀ bits_per_pixel : Nat,
      ((bits_per_pixel < 8 ∨ bits_per_pixel > 16) →
        get_pixel_format de265_chroma_420 bits_per_pixel = AV_PIX_FMT_NONE ∧
        get_pixel_format de265_chroma_422 bits_per_pixel = AV_PIX_FMT_NONE ∧
        get_pixel_format de265_chroma_444 bits_per_pixel = AV_PIX_FMT_NONE) ∧
      ((bits_per_pixel = 11 ∨ bits_per_pixel = 13 ∨ bits_per_pixel = 15 ∨
          bits_per_pixel = 16) →
        get_pixel_format de265_chroma_420 bits_per_pixel = AV_PIX_FMT_YUV420P16LE ∧
        get_pixel_format de265_chroma_422 bits_per_pixel = AV_PIX_FMT_YUV422P16LE ∧
        get_pixel_format de265_chroma_444 bits_per_pixel = AV_PIX_FMT_YUV444P16LE) ∧
      get_pixel_format de265_chroma_mono bits_per_pixel = AV_PIX_FMT_GRAY8 := by
  intro bits
  refine ⟨fun h => ⟨?_, ?_, ?_⟩, fun h => ⟨?_, ?_, ?_⟩, rfl⟩ <;>
    · simp only [get_pixel_format]
      split_ifs <;> first | rfl | omega

/-- Witness for `get_pixel_format_range_behavior` at bits-per-pixel 13
(strictly between the grid points 12 and 14). -/
theorem get_pixel_format_range_behavior_witness :
    get_pixel_format de265_chroma_420 13 = AV_PIX_FMT_YUV420P16LE ∧
    get_pixel_format de265_chroma_422 13 = AV_PIX_FMT_YUV422P16LE ∧
    get_pixel_format de265_chroma_444 13 = AV_PIX_FMT_YUV444P16LE :=
  (get_pixel_format_range_behavior 13).2.1 (by decide)

/-- C2 counterexample: for a 4:4:4 picture (chroma not subsampled) with
`crop_left = 2`, the second plane's base is advanced by
`2 >> 1 = 1`, not by the unshifted `crop_left = 2` the claim requires
for non-subsampled layouts — the code applies `shift = 1` to every
plane after the first regardless of the chroma layout. -/
theorem crop_444_subsequent_plane_counterexample :
    ¬ ((crop_retrieved_picture
          { width := 8, height := 8, format := AV_PIX_FMT_YUV444P,
            data0 := 0, data1 := 0, data2 := 0,
            linesize0 := 16, linesize1 := 16, linesize2 := 16 }
          { chroma := de265_chroma_444, luma_bits_per_pixel := 8,
            chroma_bits_per_pixel := 8, width := 8, height := 8,
            visible_width := 6, visible_height := 8,
            crop_left := 2, crop_top := 0, alignment := 16 }
          de265_chroma_444).data1 = 0 + 2 + 0 * 16) := by
  decide

/-- C2 (amended): on the zero-copy path with an attached spec, the
outgoing frame takes the spec's visible width/height, the first plane's
base is advanced by `crop_left + crop_top * linesize` (shift 0), and
every subsequent plane's base is advanced by
`(crop_left >> 1) + (crop_top >> 1) * linesize` regardless of whether
the chroma layout is subsampled — also for 4:4:4; for monochrome the
subsequent planes are untouched. -/
theorem crop_retrieved_picture_offsets :
    ∀ (pic : FrameBuf) (spec : de265_image_spec) (chroma : de265_chroma),
      (crop_retrieved_picture pic spec chroma).width = spec.visible_width ∧
      (crop_retrieved_picture pic spec chroma).height = spec.visible_height ∧
      (crop_retrieved_picture pic spec chroma).data0 =
        pic.data0 + spec.crop_left + spec.crop_top * pic.linesize0 ∧
      (chroma ≠ de265_chroma_mono →
        (crop_retrieved_picture pic spec chroma).data1 =
          pic.data1 + (spec.crop_left >>> 1) + (spec.crop_top >>> 1) * pic.linesize1 ∧
        (crop_retrieved_picture pic spec chroma).data2 =
          pic.data2 + (spec.crop_left >>> 1) + (spec.crop_top >>> 1) * pic.linesize2) ∧
      (chroma = de265_chroma_mono →
        (crop_retrieved_picture pic spec chroma).data1 = pic.data1 ∧
        (crop_retrieved_picture pic spec chroma).data2 = pic.data2) := by
  intro pic spec chroma
  cases chroma <;>
    simp [crop_retrieved_picture, Nat.shiftRight_zero]

/-- Witness for `crop_retrieved_picture_offsets`: a 4:2:0 picture with
crop offsets (2, 4) and distinct plane bases/strides. -/
theorem crop_retrieved_picture_offsets_witness :
    (crop_retrieved_picture
        { width := 8, height := 8, format := AV_PIX_FMT_YUV420P,
          data0 := 100, data1 := 200, data2 := 300,
          linesize0 := 16, linesize1 := 8, linesize2 := 8 }
        { chroma := de265_chroma_420, luma_bits_per_pixel := 8,
          chroma_bits_per_pixel := 8, width := 8, height := 8,
          visible_width := 6, visible_height := 4,
          crop_left := 2, crop_top := 4, alignment := 16 }
        de265_chroma_420).data1 = 200 + (2 >>> 1) + (4 >>> 1) * 8 :=
  ((crop_retrieved_picture_offsets
      { width := 8, height := 8, format := AV_PIX_FMT_YUV420P,
        data0 := 100, data1 := 200, data2 := 300,
        linesize0 := 16, linesize1 := 8, linesize2 := 8 }
      { chroma := de265_chroma_420, luma_bits_per_pixel := 8,
        chroma_bits_per_pixel := 8, width := 8, height := 8,
        visible_width := 6, visible_height := 4,
        crop_left := 2, crop_top := 4, alignment := 16 }
      de265_chroma_420).2.2.2.1 (by decide)).1

/-- C10: with empty extradata, the extradata probe leaves the context
in its initialized framing mode — packetized with a 4-byte length
field — so every subsequent non-empty packet is demuxed by the
length-prefixed loop with `length_size = 4` rather than pushed as a raw
byte stream. -/
theorem default_framing_packetized_contract :
    (libde265dec_check_extradata ff_libde265dec_ctx_init []).1.packetized = true ∧
    (libde265dec_check_extradata ff_libde265dec_ctx_init []).1.length_size = 4 ∧
    ∀ packet : List Nat, packet.length > 0 →
      libde265dec_decode_packet
          (libde265dec_check_extradata ff_libde265dec_ctx_init []).1 packet =
        .pushNALs (ff_libde265dec_decode_packetized 4 packet) := by
  refine ⟨rfl, rfl, fun packet hp => ?_⟩
  simp [libde265dec_decode_packet, libde265dec_check_extradata,
    ff_libde265dec_ctx_init, hp]

/-- Witness for `default_framing_packetized_contract`: a one-record
packet is demuxed with the default 4-byte length field. -/
theorem default_framing_packetized_contract_witness :
    libde265dec_decode_packet
        (libde265dec_check_extradata ff_libde265dec_ctx_init []).1
        [0, 0, 0, 1, 171] =
      .pushNALs (ff_libde265dec_decode_packetized 4 [0, 0, 0, 1, 171]) :=
  default_framing_packetized_contract.2.2 [0, 0, 0, 1, 171] (by decide)

/-- C1: the packetized decode loop performs no bounds check on the
declared NAL length.  On the packet `[0, 0, 0, 10, 0xAB]` (4-byte
length field declaring 10 bytes, only 1 byte remaining) the loop
submits a NAL whose declared length (10) exceeds the bytes available
after the length field (1), i.e. it tells the engine to read 9 bytes
past the packet's end, and the loop completes without rejecting the
packet (`de265_push_NAL` receives only a pointer and the declared
length, so it cannot detect the overrun; the C then returns the packet
size, reporting success). -/
theorem decode_packetized_truncated_record_reads_past_end :
    ff_libde265dec_decode_packetized 4 [0, 0, 0, 10, 171] =
      [{ declared := 10, payload := [171], available := 1 }] ∧
    (1 : Nat) < 10 := by
  refine ⟨?_, by decide⟩
  simp +decide [ff_libde265dec_decode_packetized, read_nal_size]

/-- One pool operation keeps both pool lengths within capacity. -/
theorem pools_step_bounded (st : DecPools) (op : PoolOp)
    (hf : st.frame_queue.length ≤ MAX_FRAME_QUEUE)
    (hs : st.spec_queue.length ≤ MAX_SPEC_QUEUE) :
    (st.step op).frame_queue.length ≤ MAX_FRAME_QUEUE ∧
    (st.step op).spec_queue.length ≤ MAX_SPEC_QUEUE := by
  cases op with
  | releaseFrame hook attached f =>
      cases attached <;>
        · simp only [DecPools.step, ff_libde265dec_release_buffer, free_spec]
          split_ifs <;>
            simp_all [MAX_FRAME_QUEUE, MAX_SPEC_QUEUE] <;> omega
  | popFrame =>
      cases hq : st.frame_queue <;>
        simp_all [DecPools.step, frame_queue_pop] <;> omega
  | popSpec =>
      refine ⟨by simpa [DecPools.step] using hf, ?_⟩
      simp only [DecPools.step, spec_queue_pop]
      have h := List.length_dropLast st.spec_queue
      omega

/-- Any operation sequence keeps both pool lengths within capacity. -/
theorem pools_run_bounded (ops : List PoolOp) (st : DecPools)
    (hf : st.frame_queue.length ≤ MAX_FRAME_QUEUE)
    (hs : st.spec_queue.length ≤ MAX_SPEC_QUEUE) :
    (st.run ops).frame_queue.length ≤ MAX_FRAME_QUEUE ∧
    (st.run ops).spec_queue.length ≤ MAX_SPEC_QUEUE := by
  induction ops generalizing st with
  | nil => exact ⟨hf, hs⟩
  | cons op rest ih =>
      have h := pools_step_bounded st op hf hs
      simpa [DecPools.run, List.foldl_cons] using ih (st.step op) h.1 h.2

/-- C5: starting from empty pools, no sequence of release/pop
operations ever grows the frame pool or the spec-descriptor pool past
16 entries; a release whose frame pool is full leaves the pool
unchanged (the frame is freed); `free_spec` on a full spec pool
destroys the descriptor and leaves the pool unchanged; and popping from
an empty pool falls through to the freshly allocated item instead of an
error. -/
theorem recycling_pools_bounded_contract :
    (∀ ops : List PoolOp,
      (DecPools.run ⟨[], []⟩ ops).frame_queue.length ≤ MAX_FRAME_QUEUE ∧
      (DecPools.run ⟨[], []⟩ ops).spec_queue.length ≤ MAX_SPEC_QUEUE) ∧
    (∀ (f : FrameBuf) (st : DecPools),
      st.frame_queue.length = MAX_FRAME_QUEUE →
      (ff_libde265dec_release_buffer false none f st).frame_queue =
        st.frame_queue) ∧
    (∀ (q : List de265_image_spec) (spec : de265_image_spec),
      MAX_SPEC_QUEUE ≤ q.length → free_spec q spec = (q, true)) ∧
    (∀ fresh : FrameBuf, frame_pop_or_new [] fresh = (fresh, [])) ∧
    (∀ fresh : de265_image_spec, spec_pop_or_new [] fresh = (fresh, [])) := by
  refine ⟨fun ops => pools_run_bounded ops ⟨[], []⟩ (by simp) (by simp),
    fun f st hfull => ?_, fun q spec hfull => ?_, fun fresh => rfl,
    fun fresh => rfl⟩
  · simp [ff_libde265dec_release_buffer, hfull]
  · simp only [free_spec]
    rw [if_neg (by omega)]

/-- Witness for `recycling_pools_bounded_contract`: a short concrete
operation sequence stays bounded, a full spec pool rejects a push, and
an empty frame pool yields the fresh frame. -/
theorem recycling_pools_bounded_contract_witness :
    (DecPools.run ⟨[], []⟩ [.popFrame, .popSpec]).frame_queue.length ≤
        MAX_FRAME_QUEUE ∧
    frame_pop_or_new []
        { width := 8, height := 8, format := AV_PIX_FMT_YUV420P,
          data0 := 0, data1 := 0, data2 := 0,
          linesize0 := 8, linesize1 := 4, linesize2 := 4 } =
      ({ width := 8, height := 8, format := AV_PIX_FMT_YUV420P,
         data0 := 0, data1 := 0, data2 := 0,
         linesize0 := 8, linesize1 := 4, linesize2 := 4 }, []) :=
  ⟨(recycling_pools_bounded_contract.1 [.popFrame, .popSpec]).1,
   recycling_pools_bounded_contract.2.2.2.1
     { width := 8, height := 8, format := AV_PIX_FMT_YUV420P,
       data0 := 0, data1 := 0, data2 := 0,
       linesize0 := 8, linesize1 := 4, linesize2 := 4 }⟩

/-- The tail of the allocate callback never reports a fatal error. -/
theorem libde265dec_finish_buffer_not_fatal (env : AllocEnv)
    (spec : de265_image_spec) (frame : FrameBuf) (st : DecPools) :
    (libde265dec_finish_buffer env spec frame st).1 ≠ .fatalError := by
  unfold libde265dec_finish_buffer
  split_ifs <;> simp

/-- The fresh-allocation arm never reports a fatal error. -/
theorem libde265dec_fresh_frame_not_fatal (env : AllocEnv)
    (spec : de265_image_spec) (format : AVPixelFormat) (st : DecPools) :
    (libde265dec_fresh_frame env spec format st).1 ≠ .fatalError := by
  unfold libde265dec_fresh_frame
  split_ifs with h1 h2
  · apply libde265dec_finish_buffer_not_fatal
  · simp
  · simp

/-- If the tail of the allocate callback reports success, the delivered
frame is the obtained frame and every used plane base is aligned to the
spec's alignment. -/
theorem libde265dec_finish_buffer_success (env : AllocEnv)
    (spec : de265_image_spec) (frame f : FrameBuf) (st st₂ : DecPools)
    (attached : Option de265_image_spec)
    (h : libde265dec_finish_buffer env spec frame st =
      (.success f attached, st₂)) :
    f = frame ∧
      ∀ i < (if spec.chroma = de265_chroma_mono then 1 else 3),
        f.dataAt i % spec.alignment = 0 := by
  unfold libde265dec_finish_buffer at h
  by_cases h1 : (frame.width ≠ spec.visible_width ∨
      frame.height ≠ spec.visible_height) ∧ st.spec_queue = [] ∧ ¬ env.malloc_ok
  · rw [if_pos h1] at h
    exact AllocOutcome.noConfusion (Prod.mk.inj h).1
  · rw [if_neg h1] at h
    by_cases h2 : ∃ i < (if spec.chroma = de265_chroma_mono then 1 else 3),
        frame.dataAt i % spec.alignment ≠ 0
    · rw [if_pos h2] at h
      exact AllocOutcome.noConfusion (Prod.mk.inj h).1
    · rw [if_neg h2] at h
      obtain ⟨hs, -⟩ := Prod.mk.inj h
      obtain ⟨hf, -⟩ := AllocOutcome.success.inj hs
      subst hf
      push_neg at h2
      exact ⟨rfl, fun i hi => h2 i hi⟩

/-- If the fresh-allocation arm reports success, every used plane base
of the delivered frame is aligned to the spec's alignment. -/
theorem libde265dec_fresh_frame_success (env : AllocEnv)
    (spec : de265_image_spec) (format : AVPixelFormat) (f : FrameBuf)
    (st st₂ : DecPools) (attached : Option de265_image_spec)
    (h : libde265dec_fresh_frame env spec format st =
      (.success f attached, st₂)) :
    ∀ i < (if spec.chroma = de265_chroma_mono then 1 else 3),
      f.dataAt i % spec.alignment = 0 := by
  unfold libde265dec_fresh_frame at h
  split_ifs at h with h1 h2
  · exact (libde265dec_finish_buffer_success _ _ _ _ _ _ _ h).2
  · exact AllocOutcome.noConfusion (Prod.mk.inj h).1
  · exact AllocOutcome.noConfusion (Prod.mk.inj h).1

/-- The allocate callback never reports a fatal error to the engine. -/
theorem ff_libde265dec_get_buffer_not_fatal (env : AllocEnv)
    (spec : de265_image_spec) (st : DecPools) :
    (ff_libde265dec_get_buffer env spec st).1 ≠ .fatalError := by
  unfold ff_libde265dec_get_buffer
  cases hq : st.frame_queue with
  | nil =>
      simp only [frame_queue_pop]
      split_ifs <;>
        first
          | apply libde265dec_finish_buffer_not_fatal
          | apply libde265dec_fresh_frame_not_fatal
          | simp
  | cons f rest =>
      simp only [frame_queue_pop]
      split_ifs <;>
        first
          | apply libde265dec_finish_buffer_not_fatal
          | apply libde265dec_fresh_frame_not_fatal
          | simp

/-- C4: every rejection condition of the allocate callback — luma/chroma
bit-depth mismatch on a non-monochrome layout, unsupported pixel
format, nominal bit depth of the resolved format differing from the
spec's bit depth, host allocation failure, internal (pool-path)
allocation failure, spec-descriptor allocation failure, or a misaligned
plane base (contrapositive: success implies every used plane is
aligned) — results in delegation to the engine's built-in default
allocator, and the callback never reports a fatal error to the
engine. -/
theorem ff_libde265dec_get_buffer_fallback_contract :
    ∀ (env : AllocEnv) (spec : de265_image_spec) (st : DecPools),
      (ff_libde265dec_get_buffer env spec st).1 ≠ .fatalError ∧
      ((spec.chroma ≠ de265_chroma_mono ∧
          spec.luma_bits_per_pixel ≠ spec.chroma_bits_per_pixel) →
        (ff_libde265dec_get_buffer env spec st).1 = .fallback) ∧
      (get_pixel_format spec.chroma spec.luma_bits_per_pixel = AV_PIX_FMT_NONE →
        (ff_libde265dec_get_buffer env spec st).1 = .fallback) ∧
      (get_output_bits_per_pixel
          (get_pixel_format spec.chroma spec.luma_bits_per_pixel) ≠
          (spec.luma_bits_per_pixel : Int) →
        (ff_libde265dec_get_buffer env spec st).1 = .fallback) ∧
      (env.get_buffer2_present = true →
        (env.frame_alloc_ok = false ∨ env.get_buffer2_ok = false) →
        (ff_libde265dec_get_buffer env spec st).1 = .fallback) ∧
      (env.get_buffer2_present = false → st.frame_queue = [] →
        (env.frame_alloc_ok = false ∨ env.frame_get_buffer_ok = false) →
        (ff_libde265dec_get_buffer env spec st).1 = .fallback) ∧
      (env.get_buffer2_present = false → st.frame_queue = [] →
        st.spec_queue = [] → env.malloc_ok = false →
        (spec.width ≠ spec.visible_width ∨ spec.height ≠ spec.visible_height) →
        (ff_libde265dec_get_buffer env spec st).1 = .fallback) ∧
      (∀ (f : FrameBuf) (attached : Option de265_image_spec) (st₂ : DecPools),
        ff_libde265dec_get_buffer env spec st = (.success f attached, st₂) →
        ∀ i < (if spec.chroma = de265_chroma_mono then 1 else 3),
          f.dataAt i % spec.alignment = 0) := by
  intro env spec st
  refine ⟨ff_libde265dec_get_buffer_not_fatal env spec st, ?_, ?_, ?_, ?_, ?_, ?_, ?_⟩
  · intro h
    unfold ff_libde265dec_get_buffer
    rw [if_pos h]
  · intro hfmt
    unfold ff_libde265dec_get_buffer
    split_ifs <;> first | rfl | exact absurd hfmt (by assumption)
  · intro hbits
    unfold ff_libde265dec_get_buffer
    split_ifs <;> first | rfl | exact absurd hbits (by assumption)
  · intro hp hfail
    unfold ff_libde265dec_get_buffer
    split_ifs <;>
      first
        | rfl
        | simp_all
        | (exact absurd hp (by simp_all))
  · intro hp hq hfail
    unfold ff_libde265dec_get_buffer
    rw [hq]
    simp only [frame_queue_pop]
    have hff : (libde265dec_fresh_frame env spec
        (get_pixel_format spec.chroma spec.luma_bits_per_pixel) st).1 =
        .fallback := by
      unfold libde265dec_fresh_frame
      rcases hfail with hf | hf
      · rw [if_pos (by simp [hf])]
      · by_cases ha : env.frame_alloc_ok
        · rw [if_neg (by simp [ha]), if_pos (by simp [hf])]
        · rw [if_pos (by simp [ha])]
    split_ifs <;> first | rfl | exact hff | simp_all
  · intro hp hq hsq hmal hdim
    unfold ff_libde265dec_get_buffer
    rw [hq]
    simp only [frame_queue_pop]
    split_ifs with h1 h2 h3 h4 <;>
      first
        | rfl
        | simp_all [libde265dec_fresh_frame, libde265dec_finish_buffer]
  · intro f attached st₂ h
    unfold ff_libde265dec_get_buffer at h
    by_cases h1 : spec.chroma ≠ de265_chroma_mono ∧
        spec.luma_bits_per_pixel ≠ spec.chroma_bits_per_pixel
    · rw [if_pos h1] at h
      exact AllocOutcome.noConfusion (Prod.mk.inj h).1
    rw [if_neg h1] at h
    by_cases h2 : get_pixel_format spec.chroma spec.luma_bits_per_pixel =
        AV_PIX_FMT_NONE
    · rw [if_pos h2] at h
      exact AllocOutcome.noConfusion (Prod.mk.inj h).1
    rw [if_neg h2] at h
    by_cases h3 : get_output_bits_per_pixel
        (get_pixel_format spec.chroma spec.luma_bits_per_pixel) ≠
        (spec.luma_bits_per_pixel : Int)
    · rw [if_pos h3] at h
      exact AllocOutcome.noConfusion (Prod.mk.inj h).1
    rw [if_neg h3] at h
    by_cases h4 : env.get_buffer2_present = true
    · -- host-hook path
      rw [if_pos h4] at h
      by_cases ha : env.frame_alloc_ok
      · by_cases hb : env.get_buffer2_ok
        · rw [if_neg (by simp [ha]), if_neg (by simp [hb])] at h
          exact (libde265dec_finish_buffer_success _ _ _ _ _ _ _ h).2
        · rw [if_neg (by simp [ha]), if_pos (by simp [hb])] at h
          exact AllocOutcome.noConfusion (Prod.mk.inj h).1
      · rw [if_pos (by simp [ha])] at h
        exact AllocOutcome.noConfusion (Prod.mk.inj h).1
    · -- pool path
      rw [if_neg h4] at h
      cases hq : st.frame_queue with
      | nil =>
          rw [hq] at h
          simp only [frame_queue_pop] at h
          exact libde265dec_fresh_frame_success _ _ _ _ _ _ _ h
      | cons fr rest =>
          rw [hq] at h
          simp only [frame_queue_pop] at h
          by_cases hmatch : fr.width ≠ spec.width ∨ fr.height ≠ spec.height ∨
              fr.format ≠ get_pixel_format spec.chroma spec.luma_bits_per_pixel
          · rw [if_pos hmatch] at h
            exact libde265dec_fresh_frame_success _ _ _ _ _ _ _ h
          · rw [if_neg hmatch] at h
            exact (libde265dec_finish_buffer_success _ _ _ _ _ _ _ h).2

/-- Witness for `ff_libde265dec_get_buffer_fallback_contract`: a spec
whose luma and chroma bit depths disagree on a 4:2:0 layout is
delegated to the default allocator. -/
theorem ff_libde265dec_get_buffer_fallback_contract_witness :
    (ff_libde265dec_get_buffer
        { get_buffer2_present := false, frame_alloc_ok := true,
          get_buffer2_ok := true,
          host_planes :=
            { width := 0, height := 0, format := AV_PIX_FMT_NONE,
              data0 := 0, data1 := 0, data2 := 0,
              linesize0 := 0, linesize1 := 0, linesize2 := 0 },
          frame_get_buffer_ok := true,
          new_planes :=
            { width := 0, height := 0, format := AV_PIX_FMT_NONE,
              data0 := 0, data1 := 0, data2 := 0,
              linesize0 := 0, linesize1 := 0, linesize2 := 0 },
          malloc_ok := true }
        { chroma := de265_chroma_420, luma_bits_per_pixel := 10,
          chroma_bits_per_pixel := 8, width := 16, height := 16,
          visible_width := 16, visible_height := 16,
          crop_left := 0, crop_top := 0, alignment := 16 }
        ⟨[], []⟩).1 = .fallback :=
  (ff_libde265dec_get_buffer_fallback_contract
      { get_buffer2_present := false, frame_alloc_ok := true,
        get_buffer2_ok := true,
        host_planes :=
          { width := 0, height := 0, format := AV_PIX_FMT_NONE,
            data0 := 0, data1 := 0, data2 := 0,
            linesize0 := 0, linesize1 := 0, linesize2 := 0 },
        frame_get_buffer_ok := true,
        new_planes :=
          { width := 0, height := 0, format := AV_PIX_FMT_NONE,
            data0 := 0, data1 := 0, data2 := 0,
            linesize0 := 0, linesize1 := 0, linesize2 := 0 },
        malloc_ok := true }
      { chroma := de265_chroma_420, luma_bits_per_pixel := 10,
        chroma_bits_per_pixel := 8, width := 16, height := 16,
        visible_width := 16, visible_height := 16,
        crop_left := 0, crop_top := 0, alignment := 16 }
      ⟨[], []⟩).2.1 (by decide)

/-- `beBytes` produces exactly `width` bytes. -/
theorem beBytes_length (width v : Nat) : (beBytes width v).length = width := by
  induction width generalizing v with
  | zero => rfl
  | succ w ih => simp [beBytes, ih]

/-- Big-endian accumulation over `beBytes` recovers the value modulo
`256 ^ width`. -/
theorem foldl_beBytes (width v acc : Nat) :
    (beBytes width v).foldl (fun a b => a * 256 + b) acc =
      acc * 256 ^ width + v % 256 ^ width := by
  induction width generalizing v acc with
  | zero => simp [beBytes, Nat.mod_one]
  | succ w ih =>
      rw [beBytes, List.foldl_append, ih]
      simp only [List.foldl_cons, List.foldl_nil]
      have h256 : (256 : Nat) ^ (w + 1) = 256 ^ w * 256 := by ring
      have hmod : v % (256 ^ w * 256) = v % 256 + 256 * (v / 256 % (256 ^ w)) := by
        rw [Nat.mul_comm (256 ^ w) 256, Nat.mod_mul]
      rw [h256, hmod]
      ring

/-- Reading a length field from an encoded record recovers the declared
length. -/
theorem read_nal_size_encode (length_size n : Nat) (rest : List Nat)
    (h : n < 256 ^ length_size) :
    read_nal_size length_size (beBytes length_size n ++ rest) = n := by
  unfold read_nal_size
  rw [List.take_left' (beBytes_length length_size n), foldl_beBytes]
  simp [Nat.mod_eq_of_lt h]

/-- One unfolding of the packetized decode loop when at least
`length_size` bytes remain. -/
theorem decode_packetized_cons (length_size : Nat) (data : List Nat)
    (h1 : 1 ≤ length_size) (h2 : length_size ≤ data.length) :
    ff_libde265dec_decode_packetized length_size data =
      ⟨read_nal_size length_size data,
       (data.drop length_size).take (read_nal_size length_size data),
       (data.drop length_size).length⟩ ::
      ff_libde265dec_decode_packetized length_size
        ((data.drop length_size).drop (read_nal_size length_size data)) := by
  rw [ff_libde265dec_decode_packetized.eq_def, dif_pos ⟨h1, h2⟩]

/-- The packetized decode loop stops when fewer than `length_size`
bytes remain. -/
theorem decode_packetized_nil (length_size : Nat) (data : List Nat)
    (h : data.length < length_size) :
    ff_libde265dec_decode_packetized length_size data = [] := by
  rw [ff_libde265dec_decode_packetized.eq_def, dif_neg (by omega)]

/-- C8: for a packet made of `N` concatenated big-endian
length-prefixed records whose lengths exactly tile the packet, the
packetized decode loop performs exactly `N` submissions, the `i`-th
submission carries exactly the `i`-th payload, every submission's
declared length is covered by the bytes remaining after its length
field (no out-of-bounds read), and the loop terminates when fewer than
`length_size` bytes remain — for a tiling packet, exactly at its
end. -/
theorem decode_packetized_exact_records :
    ∀ (length_size : Nat) (records : List (List Nat)),
      1 ≤ length_size →
      (∀ r ∈ records, r.length < 256 ^ length_size) →
      (ff_libde265dec_decode_packetized length_size
          (encodePacket length_size records)).map PushedNAL.payload = records ∧
      (ff_libde265dec_decode_packetized length_size
          (encodePacket length_size records)).length = records.length ∧
      (∀ p ∈ ff_libde265dec_decode_packetized length_size
          (encodePacket length_size records),
        p.declared ≤ p.available ∧ p.payload.length = p.declared) := by
  intro length_size records h1 hlen
  induction records with
  | nil =>
      rw [show encodePacket length_size [] = [] from rfl,
        decode_packetized_nil length_size [] (by simpa using h1)]
      simp
  | cons r rs ih =>
      have hr : r.length < 256 ^ length_size := hlen r (by simp)
      have hrs : ∀ x ∈ rs, x.length < 256 ^ length_size :=
        fun x hx => hlen x (by simp [hx])
      have hE : encodePacket length_size (r :: rs) =
          beBytes length_size r.length ++ (r ++ encodePacket length_size rs) := by
        simp [encodePacket, encodeRecord, List.append_assoc]
      have hdrop : (encodePacket length_size (r :: rs)).drop length_size =
          r ++ encodePacket length_size rs := by
        rw [hE, List.drop_left' (beBytes_length length_size r.length)]
      have hread : read_nal_size length_size (encodePacket length_size (r :: rs)) =
          r.length := by
        rw [hE, read_nal_size_encode length_size r.length _ hr]
      have hstep := decode_packetized_cons length_size
        (encodePacket length_size (r :: rs)) h1
        (by rw [hE]; simp [beBytes_length])
      rw [hread, hdrop] at hstep
      rw [List.take_left' rfl, List.drop_left' rfl] at hstep
      obtain ⟨ihm, ihl, ihp⟩ := ih hrs
      refine ⟨?_, ?_, ?_⟩
      · rw [hstep]
        simp [PushedNAL.payload, ihm]
      · rw [hstep]
        simp [ihl]
      · rw [hstep]
        intro p hp
        rcases List.mem_cons.mp hp with hph | hpt
        · subst hph
          simp
        · exact ihp p hpt

/-- Witness for `decode_packetized_exact_records`: a two-record packet
with a 4-byte length field is demuxed into exactly its two payloads. -/
theorem decode_packetized_exact_records_witness :
    (ff_libde265dec_decode_packetized 4
        (encodePacket 4 [[171], [5, 6, 7]])).map PushedNAL.payload =
      [[171], [5, 6, 7]] :=
  (decode_packetized_exact_records 4 [[171], [5, 6, 7]] (by decide)
      (by decide)).1

/-- Decoding a stored 16-bit sample recovers it modulo `2 ^ 16`. -/
theorem decodeSamples16_store (v : Nat) (l : List Nat) :
    decodeSamples16 (u16le_store v ++ l) = v % 65536 :: decodeSamples16 l := by
  show decodeSamples16 (v % 256 :: v / 256 % 256 :: l) = _
  simp only [decodeSamples16]
  congr 1
  unfold u16le_load
  omega

/-- The right-shift line commutes with the 16-bit sample codec. -/
theorem decode_copy_line_right (shift : Nat) :
    ∀ samples : List Nat, (∀ v ∈ samples, v < 65536) →
      decodeSamples16
          (copy_line_16_to_16_right shift (encodeSamples16 samples)) =
        samples.map (fun v => v >>> shift) := by
  intro samples h
  induction samples with
  | nil => rfl
  | cons v s ih =>
      have hv : v < 65536 := h v (by simp)
      have hs : ∀ x ∈ s, x < 65536 := fun x hx => h x (by simp [hx])
      have hload : u16le_load (v % 256) (v / 256 % 256) = v := by
        unfold u16le_load
        omega
      show decodeSamples16 (copy_line_16_to_16_right shift
          (v % 256 :: v / 256 % 256 :: encodeSamples16 s)) = _
      simp only [copy_line_16_to_16_right, hload, decodeSamples16_store, ih hs,
        List.map_cons]
      congr 1
      have hle : v >>> shift ≤ v := by
        rw [Nat.shiftRight_eq_div_pow]
        exact Nat.div_le_self v (2 ^ shift)
      exact Nat.mod_eq_of_lt (lt_of_le_of_lt hle hv)

/-- The 16-bit left-shift line commutes with the 16-bit sample codec as
long as no shifted sample overflows 16 bits. -/
theorem decode_copy_line_left (shift : Nat) :
    ∀ samples : List Nat, (∀ v ∈ samples, v <<< shift < 65536) →
      decodeSamples16
          (copy_line_16_to_16_left shift (encodeSamples16 samples)) =
        samples.map (fun v => v <<< shift) := by
  intro samples h
  induction samples with
  | nil => rfl
  | cons v s ih =>
      have hv : v <<< shift < 65536 := h v (by simp)
      have hs : ∀ x ∈ s, x <<< shift < 65536 := fun x hx => h x (by simp [hx])
      have hvlt : v < 65536 := by
        have : v ≤ v <<< shift := by
          rw [Nat.shiftLeft_eq]
          exact Nat.le_mul_of_pos_right v (Nat.pos_pow_of_pos shift (by omega))
        omega
      have hload : u16le_load (v % 256) (v / 256 % 256) = v := by
        unfold u16le_load
        omega
      show decodeSamples16 (copy_line_16_to_16_left shift
          (v % 256 :: v / 256 % 256 :: encodeSamples16 s)) = _
      simp only [copy_line_16_to_16_left, hload, decodeSamples16_store, ih hs,
        List.map_cons]
      congr 1
      exact Nat.mod_eq_of_lt hv

/-- The 8-to-16-bit widening line maps each source byte to the
left-shifted 16-bit sample as long as no shifted sample overflows 16
bits. -/
theorem decode_copy_line_8 (shift : Nat) :
    ∀ samples : List Nat, (∀ v ∈ samples, v <<< shift < 65536) →
      decodeSamples16 (copy_line_8_to_16_left shift samples) =
        samples.map (fun v => v <<< shift) := by
  intro samples h
  induction samples with
  | nil => rfl
  | cons v s ih =>
      have hv : v <<< shift < 65536 := h v (by simp)
      have hs : ∀ x ∈ s, x <<< shift < 65536 := fun x hx => h x (by simp [hx])
      simp only [copy_line_8_to_16_left, decodeSamples16_store, ih hs,
        List.map_cons]
      congr 1
      exact Nat.mod_eq_of_lt hv

/-- Shifted samples stay within the output depth. -/
theorem shiftLeft_lt_of_depth (v plane_bits out_bits : Nat)
    (hv : v < 2 ^ plane_bits) (hlt : plane_bits < out_bits)
    (h16 : out_bits ≤ 16) : v <<< (out_bits - plane_bits) < 65536 := by
  rw [Nat.shiftLeft_eq]
  have h1 : v * 2 ^ (out_bits - plane_bits) <
      2 ^ plane_bits * 2 ^ (out_bits - plane_bits) :=
    (Nat.mul_lt_mul_right (Nat.pos_pow_of_pos _ (by omega))).mpr hv
  have h2 : 2 ^ plane_bits * 2 ^ (out_bits - plane_bits) = 2 ^ out_bits := by
    rw [← pow_add]
    congr 1
    omega
  have h3 : (2 : Nat) ^ out_bits ≤ 2 ^ 16 :=
    Nat.pow_le_pow_right (by omega) h16
  calc v * 2 ^ (out_bits - plane_bits)
      < 2 ^ plane_bits * 2 ^ (out_bits - plane_bits) := h1
    _ = 2 ^ out_bits := h2
    _ ≤ 65536 := h3

/-- C9: per-plane conversion on the copy path.  With the line's samples
viewed through the little-endian 16-bit codec: equal bit depths copy
the line byte for byte; a deeper source right-shifts every sample by
the depth difference; a shallower source deeper than 8 bits left-shifts
every 16-bit sample by the depth difference (in particular a 10-bit
plane into a 16-bit output yields `dst = src <<< 6`); an 8-bit source
is read as bytes and widened into left-shifted 16-bit samples — so
shifting operates on 16-bit sample units on every side that exceeds 8
bits per sample. -/
theorem convert_plane_line_shift_contract :
    ∀ (src samples : List Nat) (plane_bits out_bits : Nat),
      (plane_bits = out_bits →
        convert_plane_line src plane_bits out_bits = src) ∧
      (out_bits < plane_bits → (∀ v ∈ samples, v < 65536) →
        decodeSamples16 (convert_plane_line (encodeSamples16 samples)
            plane_bits out_bits) =
          samples.map (fun v => v >>> (plane_bits - out_bits))) ∧
      (8 < plane_bits → plane_bits < out_bits → out_bits ≤ 16 →
        (∀ v ∈ samples, v < 2 ^ plane_bits) →
        decodeSamples16 (convert_plane_line (encodeSamples16 samples)
            plane_bits out_bits) =
          samples.map (fun v => v <<< (out_bits - plane_bits))) ∧
      (plane_bits = 8 → 8 < out_bits → out_bits ≤ 16 →
        (∀ v ∈ samples, v < 256) →
        decodeSamples16 (convert_plane_line samples plane_bits out_bits) =
          samples.map (fun v => v <<< (out_bits - 8))) := by
  intro src samples plane_bits out_bits
  refine ⟨fun he => ?_, fun hgt hb => ?_, fun h8 hlt h16 hb => ?_,
    fun he h8 h16 hb => ?_⟩
  · unfold convert_plane_line
    split_ifs <;> first | rfl | omega
  · unfold convert_plane_line
    split_ifs <;> first | exact decode_copy_line_right _ samples hb | omega
  · unfold convert_plane_line
    split_ifs <;>
      first
        | exact decode_copy_line_left _ samples
            (fun v hv => shiftLeft_lt_of_depth v plane_bits out_bits
              (hb v hv) hlt h16)
        | omega
  · subst he
    unfold convert_plane_line
    split_ifs <;>
      first
        | exact decode_copy_line_8 _ samples
            (fun v hv => shiftLeft_lt_of_depth v 8 out_bits (hb v hv) h8 h16)
        | omega

/-- Witness for `convert_plane_line_shift_contract`: a 10-bit sample
line `[1023, 512]` converted into a 16-bit output format reads back as
`[1023 <<< 6, 512 <<< 6]`, and an equal-depth line is copied
verbatim. -/
theorem convert_plane_line_shift_contract_witness :
    convert_plane_line [7, 7] 8 8 = [7, 7] ∧
    decodeSamples16 (convert_plane_line (encodeSamples16 [1023, 512]) 10 16) =
      [1023, 512].map (fun v => v <<< 6) :=
  ⟨(convert_plane_line_shift_contract [7, 7] [] 8 8).1 rfl,
   (convert_plane_line_shift_contract [] [1023, 512] 10 16).2.2.1
     (by decide) (by decide) (by decide) (by decide)⟩

/-- Reading inside the left part of an append. -/
theorem readByte_append_left (pre l : List Nat) (i : Nat)
    (h : i < pre.length) : readByte (pre ++ l) i = readByte pre i := by
  simp [readByte, List.getD, List.getElem?_append, h]

/-- Reading past the left part of an append. -/
theorem readByte_append_right (pre l : List Nat) (k : Nat) :
    readByte (pre ++ l) (pre.length + k) = readByte l k := by
  simp [readByte, List.getD, List.getElem?_append_right]

/-- Reading inside a prefix. -/
theorem readByte_take (b : List Nat) (m i : Nat) (h : i < m) :
    readByte (b.take m) i = readByte b i := by
  simp [readByte, List.getD, List.getElem?_take, h]

/-- A successful NAL-loop parse only moves the position forward and
never past the block's end. -/
theorem parseConfigNALs_le (count : Nat) :
    ∀ (b : List Nat) (pos p : Nat) (nals : List (List Nat)),
      parseConfigNALs b pos count = .ok (p, nals) → pos ≤ b.length →
      pos ≤ p ∧ p ≤ b.length := by
  induction count with
  | zero =>
      intro b pos p nals h hpos
      simp only [parseConfigNALs] at h
      obtain ⟨hp, -⟩ := (Except.ok.inj h)
      omega
  | succ c ih =>
      intro b pos p nals h hpos
      simp only [parseConfigNALs] at h
      split_ifs at h with h1 h2
      all_goals try exact Except.noConfusion h
      split at h
      all_goals try exact Except.noConfusion h
      rename_i p' nals' heq
      have hp : p' = p := congrArg Prod.fst (Except.ok.inj h)
      have := ih b _ p' nals' heq (by omega)
      omega

/-- A successful group-loop parse only moves the position forward and
never past the block's end. -/
theorem parseConfigGroups_le (count : Nat) :
    ∀ (b : List Nat) (pos p : Nat) (nals : List (List Nat)),
      parseConfigGroups b pos count = .ok (p, nals) → pos ≤ b.length →
      pos ≤ p ∧ p ≤ b.length := by
  induction count with
  | zero =>
      intro b pos p nals h hpos
      simp only [parseConfigGroups] at h
      obtain ⟨hp, -⟩ := (Except.ok.inj h)
      omega
  | succ c ih =>
      intro b pos p nals h hpos
      simp only [parseConfigGroups] at h
      split_ifs at h with h1
      all_goals try exact Except.noConfusion h
      split at h
      all_goals try exact Except.noConfusion h
      rename_i pn nalsn heqn
      split at h
      all_goals try exact Except.noConfusion h
      rename_i pg nalsg heqg
      have hp : pg = p := congrArg Prod.fst (Except.ok.inj h)
      have hn := parseConfigNALs_le _ b _ pn nalsn heqn (by omega)
      have hg := ih b pn pg nalsg heqg (by omega)
      omega

/-- A successful NAL-loop parse is preserved on any prefix that
contains the parsed region. -/
theorem parseConfigNALs_take (count : Nat) :
    ∀ (b : List Nat) (pos p m : Nat) (nals : List (List Nat)),
      parseConfigNALs b pos count = .ok (p, nals) → pos ≤ b.length →
      p ≤ m → m ≤ b.length →
      parseConfigNALs (b.take m) pos count = .ok (p, nals) := by
  induction count with
  | zero =>
      intro b pos p m nals h hpos hpm hmb
      simpa only [parseConfigNALs] using h
  | succ c ih =>
      intro b pos p m nals h hpos hpm hmb
      have hlen : (b.take m).length = m := by
        simp [List.length_take]
        omega
      simp only [parseConfigNALs] at h
      split_ifs at h with h1 h2
      all_goals try exact Except.noConfusion h
      split at h
      all_goals try exact Except.noConfusion h
      rename_i p' nals' heq
      have hp' : p' = p := congrArg Prod.fst (Except.ok.inj h)
      have hnn : nals = (b.drop (pos + 2)).take
          (readByte b pos * 256 + readByte b (pos + 1)) :: nals' :=
        (congrArg Prod.snd (Except.ok.inj h)).symm
      rw [hp'] at heq
      have hmono := parseConfigNALs_le c b _ p nals' heq (by omega)
      have hr0 : readByte (b.take m) pos = readByte b pos :=
        readByte_take b m pos (by omega)
      have hr1 : readByte (b.take m) (pos + 1) = readByte b (pos + 1) :=
        readByte_take b m (pos + 1) (by omega)
      have hrec := ih b _ p m nals' heq (by omega) hpm hmb
      simp only [parseConfigNALs, hlen, hr0, hr1]
      rw [if_neg (by omega), if_neg (by omega), hrec]
      have hpay : ((b.take m).drop (pos + 2)).take
          (readByte b pos * 256 + readByte b (pos + 1)) =
          (b.drop (pos + 2)).take
            (readByte b pos * 256 + readByte b (pos + 1)) := by
        rw [List.drop_take]
        rw [List.take_take]
        congr 1
        omega
      rw [hpay, hnn]

/-- Truncating a block strictly inside the region consumed by a
successful NAL-loop parse turns the parse into an invalid-data
error. -/
theorem parseConfigNALs_truncated (count : Nat) :
    ∀ (b : List Nat) (pos p m : Nat) (nals : List (List Nat)),
      parseConfigNALs b pos count = .ok (p, nals) →
      pos ≤ m → m < p → m ≤ b.length →
      parseConfigNALs (b.take m) pos count = .error .AVERROR_INVALIDDATA := by
  induction count with
  | zero =>
      intro b pos p m nals h hm1 hm2 hm3
      simp only [parseConfigNALs] at h
      have hp : pos = p := congrArg Prod.fst (Except.ok.inj h)
      omega
  | succ c ih =>
      intro b pos p m nals h hm1 hm2 hm3
      have hlen : (b.take m).length = m := by
        simp [List.length_take]
        omega
      simp only [parseConfigNALs] at h
      split_ifs at h with h1 h2
      all_goals try exact Except.noConfusion h
      split at h
      all_goals try exact Except.noConfusion h
      rename_i p' nals' heq
      have hp' : p' = p := congrArg Prod.fst (Except.ok.inj h)
      rw [hp'] at heq
      by_cases hc1 : pos + 2 > m
      · simp only [parseConfigNALs, hlen]
        rw [if_pos hc1]
      · have hr0 : readByte (b.take m) pos = readByte b pos :=
          readByte_take b m pos (by omega)
        have hr1 : readByte (b.take m) (pos + 1) = readByte b (pos + 1) :=
          readByte_take b m (pos + 1) (by omega)
        by_cases hc2 : pos + 2 + (readByte b pos * 256 + readByte b (pos + 1)) > m
        · simp only [parseConfigNALs, hlen, hr0, hr1]
          rw [if_neg (by omega), if_pos hc2]
        · have hrec := ih b _ p m nals' heq (by omega) hm2 hm3
          simp only [parseConfigNALs, hlen, hr0, hr1]
          rw [if_neg (by omega), if_neg (by omega), hrec]

/-- A successful group-loop parse is preserved on any prefix that
contains the parsed region. -/
theorem parseConfigGroups_take (count : Nat) :
    ∀ (b : List Nat) (pos p m : Nat) (nals : List (List Nat)),
      parseConfigGroups b pos count = .ok (p, nals) → pos ≤ b.length →
      p ≤ m → m ≤ b.length →
      parseConfigGroups (b.take m) pos count = .ok (p, nals) := by
  induction count with
  | zero =>
      intro b pos p m nals h hpos hpm hmb
      simpa only [parseConfigGroups] using h
  | succ c ih =>
      intro b pos p m nals h hpos hpm hmb
      have hlen : (b.take m).length = m := by
        simp [List.length_take]
        omega
      simp only [parseConfigGroups] at h
      split_ifs at h with h1
      all_goals try exact Except.noConfusion h
      split at h
      all_goals try exact Except.noConfusion h
      rename_i pn nalsn heqn
      split at h
      all_goals try exact Except.noConfusion h
      rename_i pg nalsg heqg
      have hp : pg = p := congrArg Prod.fst (Except.ok.inj h)
      have hnn : nals = nalsn ++ nalsg :=
        (congrArg Prod.snd (Except.ok.inj h)).symm
      rw [hp] at heqg
      have hn := parseConfigNALs_le _ b _ pn nalsn heqn (by omega)
      have hg := parseConfigGroups_le c b pn p nalsg heqg (by omega)
      have hr1 : readByte (b.take m) (pos + 1) = readByte b (pos + 1) :=
        readByte_take b m (pos + 1) (by omega)
      have hr2 : readByte (b.take m) (pos + 2) = readByte b (pos + 2) :=
        readByte_take b m (pos + 2) (by omega)
      have hstabn := parseConfigNALs_take _ b (pos + 3) pn m nalsn heqn
        (by omega) (by omega) hmb
      have hstabg := ih b pn p m nalsg heqg (by omega) hpm hmb
      simp only [parseConfigGroups, hlen, hr1, hr2]
      rw [if_neg (by omega)]
      simp only [hstabn, hstabg, hnn]

/-- Truncating a block strictly inside the region consumed by a
successful group-loop parse turns the parse into an invalid-data
error. -/
theorem parseConfigGroups_truncated (count : Nat) :
    ∀ (b : List Nat) (pos p m : Nat) (nals : List (List Nat)),
      parseConfigGroups b pos count = .ok (p, nals) →
      pos ≤ m → m < p → m ≤ b.length →
      parseConfigGroups (b.take m) pos count =
        .error .AVERROR_INVALIDDATA := by
  induction count with
  | zero =>
      intro b pos p m nals h hm1 hm2 hm3
      simp only [parseConfigGroups] at h
      have hp : pos = p := congrArg Prod.fst (Except.ok.inj h)
      omega
  | succ c ih =>
      intro b pos p m nals h hm1 hm2 hm3
      have hlen : (b.take m).length = m := by
        simp [List.length_take]
        omega
      simp only [parseConfigGroups] at h
      split_ifs at h with h1
      all_goals try exact Except.noConfusion h
      split at h
      all_goals try exact Except.noConfusion h
      rename_i pn nalsn heqn
      split at h
      all_goals try exact Except.noConfusion h
      rename_i pg nalsg heqg
      have hp : pg = p := congrArg Prod.fst (Except.ok.inj h)
      rw [hp] at heqg
      have hn := parseConfigNALs_le _ b _ pn nalsn heqn (by omega)
      by_cases hc1 : pos + 3 > m
      · simp only [parseConfigGroups, hlen]
        rw [if_pos hc1]
      · have hr1 : readByte (b.take m) (pos + 1) = readByte b (pos + 1) :=
          readByte_take b m (pos + 1) (by omega)
        have hr2 : readByte (b.take m) (pos + 2) = readByte b (pos + 2) :=
          readByte_take b m (pos + 2) (by omega)
        by_cases hcn : m < pn
        · have htr := parseConfigNALs_truncated _ b (pos + 3) pn m nalsn heqn
            (by omega) hcn hm3
          simp only [parseConfigGroups, hlen, hr1, hr2]
          rw [if_neg (by omega), htr]
        · have hstabn := parseConfigNALs_take _ b (pos + 3) pn m nalsn heqn
            (by omega) (by omega) hm3
          have htrg := ih b pn p m nalsg heqg (by omega) hm2 hm3
          simp only [parseConfigGroups, hlen, hr1, hr2]
          rw [if_neg (by omega)]
          simp only [hstabn, htrg]

/-- Reading the head of the right part of an append. -/
theorem readByte_append_right_zero (pre : List Nat) (a : Nat) (l : List Nat) :
    readByte (pre ++ (a :: l)) pre.length = a := by
  simpa using readByte_append_right pre (a :: l) 0

/-- Reading the second element of the right part of an append. -/
theorem readByte_append_right_one (pre : List Nat) (a b : Nat) (l : List Nat) :
    readByte (pre ++ (a :: b :: l)) (pre.length + 1) = b := by
  simpa [readByte] using readByte_append_right pre (a :: b :: l) 1

/-- Parsing the serialization of a NAL list at its own position yields
exactly those NAL payloads and ends exactly after them. -/
theorem parseConfigNALs_encode :
    ∀ (nals : List (List Nat)) (pre post : List Nat),
      (∀ nal ∈ nals, nal.length < 65536) →
      parseConfigNALs (pre ++ (nals.map encodeConfigNAL).flatten ++ post)
          pre.length nals.length =
        .ok (pre.length + ((nals.map encodeConfigNAL).flatten).length, nals) := by
  intro nals
  induction nals with
  | nil =>
      intro pre post h
      simp [parseConfigNALs]
  | cons nal rest ih =>
      intro pre post h
      have hn : nal.length < 65536 := h nal (by simp)
      have hrest : ∀ x ∈ rest, x.length < 65536 := fun x hx => h x (by simp [hx])
      have hbb : beBytes 2 nal.length =
          [nal.length / 256 % 256, nal.length % 256] := by
        simp [beBytes]
      have hE1 : pre ++ ((nal :: rest).map encodeConfigNAL).flatten ++ post =
          pre ++ (nal.length / 256 % 256 :: nal.length % 256 ::
            (nal ++ ((rest.map encodeConfigNAL).flatten ++ post))) := by
        simp [encodeConfigNAL, hbb, List.append_assoc]
      rw [List.length_cons, hE1]
      have h0 := readByte_append_right_zero pre (nal.length / 256 % 256)
        (nal.length % 256 :: (nal ++ ((rest.map encodeConfigNAL).flatten ++ post)))
      have h1 := readByte_append_right_one pre (nal.length / 256 % 256)
        (nal.length % 256) (nal ++ ((rest.map encodeConfigNAL).flatten ++ post))
      simp only [parseConfigNALs, h0, h1]
      have hsize : nal.length / 256 % 256 * 256 + nal.length % 256 =
          nal.length := by omega
      rw [hsize]
      have hlenE : (pre ++ (nal.length / 256 % 256 :: nal.length % 256 ::
          (nal ++ ((rest.map encodeConfigNAL).flatten ++ post)))).length =
          pre.length + 2 + nal.length +
            ((rest.map encodeConfigNAL).flatten.length + post.length) := by
        simp
        omega
      rw [if_neg (by omega), if_neg (by omega)]
      have hsplit : pre ++ (nal.length / 256 % 256 :: nal.length % 256 ::
          (nal ++ ((rest.map encodeConfigNAL).flatten ++ post))) =
          ((pre ++ [nal.length / 256 % 256, nal.length % 256] ++ nal) ++
            (rest.map encodeConfigNAL).flatten ++ post) := by
        simp [List.append_assoc]
      have hpre' : (pre ++ [nal.length / 256 % 256, nal.length % 256] ++
          nal).length = pre.length + 2 + nal.length := by
        simp
        omega
      have hih := ih (pre ++ [nal.length / 256 % 256, nal.length % 256] ++ nal)
        post hrest
      rw [hpre'] at hih
      rw [← hsplit] at hih
      rw [hih]
      have hsplit2 : pre ++ (nal.length / 256 % 256 :: nal.length % 256 ::
          (nal ++ ((rest.map encodeConfigNAL).flatten ++ post))) =
          (pre ++ [nal.length / 256 % 256, nal.length % 256]) ++
            (nal ++ ((rest.map encodeConfigNAL).flatten ++ post)) := by
        simp
      have hdrop : ((pre ++ (nal.length / 256 % 256 :: nal.length % 256 ::
          (nal ++ ((rest.map encodeConfigNAL).flatten ++ post)))).drop
            (pre.length + 2)).take nal.length = nal := by
        rw [hsplit2, List.drop_left' (by simp)]
        exact List.take_left' rfl
      rw [hdrop]
      simp [encodeConfigNAL, beBytes_length]
      omega

/-- Reading the third element of the right part of an append. -/
theorem readByte_append_right_two (pre : List Nat) (a b c : Nat)
    (l : List Nat) :
    readByte (pre ++ (a :: b :: c :: l)) (pre.length + 2) = c := by
  simpa [readByte] using readByte_append_right pre (a :: b :: c :: l) 2

/-- Parsing the serialization of a group list at its own position
yields all contained NAL payloads in order and ends exactly after the
groups. -/
theorem parseConfigGroups_encode :
    ∀ (groups : List ConfigGroup) (pre post : List Nat),
      (∀ g ∈ groups, g.nals.length < 65536 ∧
        ∀ nal ∈ g.nals, nal.length < 65536) →
      parseConfigGroups (pre ++ (groups.map encodeConfigGroup).flatten ++ post)
          pre.length groups.length =
        .ok (pre.length + ((groups.map encodeConfigGroup).flatten).length,
          (groups.map ConfigGroup.nals).flatten) := by
  intro groups
  induction groups with
  | nil =>
      intro pre post h
      simp [parseConfigGroups]
  | cons g rest ih =>
      intro pre post h
      obtain ⟨hc, hnals⟩ := h g (by simp)
      have hrest : ∀ x ∈ rest, x.nals.length < 65536 ∧
          ∀ nal ∈ x.nals, nal.length < 65536 := fun x hx => h x (by simp [hx])
      have hbb : beBytes 2 g.nals.length =
          [g.nals.length / 256 % 256, g.nals.length % 256] := by
        simp [beBytes]
      have hE1 : pre ++ ((g :: rest).map encodeConfigGroup).flatten ++ post =
          pre ++ (g.header_byte :: g.nals.length / 256 % 256 ::
            g.nals.length % 256 ::
            ((g.nals.map encodeConfigNAL).flatten ++
              ((rest.map encodeConfigGroup).flatten ++ post))) := by
        simp [encodeConfigGroup, hbb, List.append_assoc]
      rw [List.length_cons, hE1]
      have h1 := readByte_append_right_one pre g.header_byte
        (g.nals.length / 256 % 256)
        (g.nals.length % 256 :: ((g.nals.map encodeConfigNAL).flatten ++
          ((rest.map encodeConfigGroup).flatten ++ post)))
      have h2 := readByte_append_right_two pre g.header_byte
        (g.nals.length / 256 % 256) (g.nals.length % 256)
        ((g.nals.map encodeConfigNAL).flatten ++
          ((rest.map encodeConfigGroup).flatten ++ post))
      simp only [parseConfigGroups, h1, h2]
      have hcnt : g.nals.length / 256 % 256 * 256 + g.nals.length % 256 =
          g.nals.length := by omega
      rw [hcnt]
      rw [if_neg (by simp)]
      -- the NAL loop parses this group's NAL units
      have hsplit3 : pre ++ (g.header_byte :: g.nals.length / 256 % 256 ::
          g.nals.length % 256 ::
          ((g.nals.map encodeConfigNAL).flatten ++
            ((rest.map encodeConfigGroup).flatten ++ post))) =
          (pre ++ [g.header_byte, g.nals.length / 256 % 256,
            g.nals.length % 256]) ++ (g.nals.map encodeConfigNAL).flatten ++
            ((rest.map encodeConfigGroup).flatten ++ post) := by
        simp
      have hpre3 : (pre ++ [g.header_byte, g.nals.length / 256 % 256,
          g.nals.length % 256]).length = pre.length + 3 := by
        simp
      have hnal := parseConfigNALs_encode g.nals
        (pre ++ [g.header_byte, g.nals.length / 256 % 256, g.nals.length % 256])
        ((rest.map encodeConfigGroup).flatten ++ post) hnals
      rw [hpre3, ← hsplit3] at hnal
      -- the group loop continues after this group
      have hsplit4 : pre ++ (g.header_byte :: g.nals.length / 256 % 256 ::
          g.nals.length % 256 ::
          ((g.nals.map encodeConfigNAL).flatten ++
            ((rest.map encodeConfigGroup).flatten ++ post))) =
          (pre ++ encodeConfigGroup g) ++
            (rest.map encodeConfigGroup).flatten ++ post := by
        simp [encodeConfigGroup, hbb, List.append_assoc]
      have hpre4 : (pre ++ encodeConfigGroup g).length =
          pre.length + 3 + (g.nals.map encodeConfigNAL).flatten.length := by
        simp [encodeConfigGroup, hbb]
        omega
      have hih := ih (pre ++ encodeConfigGroup g)
        post hrest
      rw [hpre4, ← hsplit4] at hih
      simp only [hnal, hih]
      simp [encodeConfigGroup, beBytes_length]
      omega

/-- C6: for every well-formed structured configuration record, the
extradata step reads the NAL-length-field width from the low 2 bits of
the byte at index 21 (plus 1) and the parameter-set-group count from
the byte at index 22, then parses each group as one ignored byte, a
2-byte big-endian NAL count, and per NAL a 2-byte big-endian size
followed by exactly that many payload bytes, submitting every NAL unit
individually and in order; truncating the block anywhere inside the
group data (so that some declared size or count would read past the
block's end) turns the whole step into an invalid-data error. -/
theorem extradata_record_parse_contract :
    ∀ (c : ConfigRecord) (st : CtxState),
      c.WF →
      (readByte (encodeConfigRecord c) 0 ≠ 0 ∨
        readByte (encodeConfigRecord c) 1 ≠ 0 ∨
        readByte (encodeConfigRecord c) 2 > 1) →
      libde265dec_check_extradata st (encodeConfigRecord c) =
        ({ st with
            check_extra := false,
            packetized := true,
            length_size := (c.length_size_byte &&& 3) + 1 },
          .pushedNALs ((c.groups.map ConfigGroup.nals).flatten)) ∧
      ∀ m, 23 ≤ m → m < (encodeConfigRecord c).length →
        libde265dec_check_extradata st ((encodeConfigRecord c).take m) =
          ({ st with
              check_extra := false,
              packetized := true,
              length_size := (c.length_size_byte &&& 3) + 1 },
            .invalidData) := by
  intro c st hwf hclass
  obtain ⟨hhead, hgcnt, hgwf⟩ := hwf
  have hcons : encodeConfigRecord c =
      c.head ++ (c.length_size_byte :: c.groups.length ::
        (c.groups.map encodeConfigGroup).flatten) := by
    simp [encodeConfigRecord]
  have hElen : (encodeConfigRecord c).length =
      23 + (c.groups.map encodeConfigGroup).flatten.length := by
    rw [hcons]
    simp [hhead]
    omega
  have hr21 : readByte (encodeConfigRecord c) 21 = c.length_size_byte := by
    rw [hcons]
    have h := readByte_append_right_zero c.head c.length_size_byte
      (c.groups.length :: (c.groups.map encodeConfigGroup).flatten)
    rwa [hhead] at h
  have hr22 : readByte (encodeConfigRecord c) 22 = c.groups.length := by
    rw [hcons]
    have h := readByte_append_right_one c.head c.length_size_byte
      c.groups.length ((c.groups.map encodeConfigGroup).flatten)
    rwa [hhead] at h
  have hEfull : (c.head ++ [c.length_size_byte] ++ [c.groups.length]) ++
      (c.groups.map encodeConfigGroup).flatten ++ [] = encodeConfigRecord c := by
    simp [encodeConfigRecord]
  have hpre : (c.head ++ [c.length_size_byte] ++ [c.groups.length]).length =
      23 := by
    simp [hhead]
  have hparse := parseConfigGroups_encode c.groups
    (c.head ++ [c.length_size_byte] ++ [c.groups.length]) [] hgwf
  rw [hpre, hEfull] at hparse
  refine ⟨?_, ?_⟩
  · unfold libde265dec_check_extradata
    rw [if_pos (by omega), if_pos ⟨by omega, hclass⟩, if_pos (by omega)]
    rw [hr22]
    simp only [hparse]
    rw [hr21]
  · intro m hm1 hm2
    have hmE : m ≤ (encodeConfigRecord c).length := by omega
    have htlen : ((encodeConfigRecord c).take m).length = m := by
      simp [List.length_take]
      omega
    have hr0t : readByte ((encodeConfigRecord c).take m) 0 =
        readByte (encodeConfigRecord c) 0 := readByte_take _ m 0 (by omega)
    have hr1t : readByte ((encodeConfigRecord c).take m) 1 =
        readByte (encodeConfigRecord c) 1 := readByte_take _ m 1 (by omega)
    have hr2t : readByte ((encodeConfigRecord c).take m) 2 =
        readByte (encodeConfigRecord c) 2 := readByte_take _ m 2 (by omega)
    have hr21t : readByte ((encodeConfigRecord c).take m) 21 =
        c.length_size_byte := by
      rw [readByte_take _ m 21 (by omega), hr21]
    have hr22t : readByte ((encodeConfigRecord c).take m) 22 =
        c.groups.length := by
      rw [readByte_take _ m 22 (by omega), hr22]
    have htrunc := parseConfigGroups_truncated c.groups.length
      (encodeConfigRecord c) 23
      (23 + (c.groups.map encodeConfigGroup).flatten.length) m
      ((c.groups.map ConfigGroup.nals).flatten) hparse (by omega)
      (by omega) hmE
    unfold libde265dec_check_extradata
    rw [if_pos (by omega), if_pos ⟨by omega, by rw [hr0t, hr1t, hr2t]; exact hclass⟩,
      if_pos (by omega)]
    rw [hr22t]
    simp only [htrunc]
    rw [hr21t]

/-- Witness for `extradata_record_parse_contract`: a concrete
configuration record with one group holding two parameter-set NAL units
is parsed into exactly those two submissions with a 4-byte length
field, and its one-byte truncation is rejected. -/
theorem extradata_record_parse_contract_witness :
    libde265dec_check_extradata ff_libde265dec_ctx_init
        (encodeConfigRecord
          { head := [1, 0, 0, 0, 0, 0, 0, 0, 0, 0, 0, 0,
              0, 0, 0, 0, 0, 0, 0, 0, 0],
            length_size_byte := 3,
            groups := [{ header_byte := 32, nals := [[64, 1], [66, 1, 7]] }] }) =
      ({ ff_libde265dec_ctx_init with
          check_extra := false,
          packetized := true,
          length_size := 4 },
        .pushedNALs [[64, 1], [66, 1, 7]]) :=
  ((extradata_record_parse_contract
      { head := [1, 0, 0, 0, 0, 0, 0, 0, 0, 0, 0, 0,
          0, 0, 0, 0, 0, 0, 0, 0, 0],
        length_size_byte := 3,
        groups := [{ header_byte := 32, nals := [[64, 1], [66, 1, 7]] }] }
      ff_libde265dec_ctx_init
      (by constructor
          · decide
          · constructor
            · decide
            · decide)
      (by decide)).1).trans (by decide)

end LibDE265Dec
